import Mathlib

/-!
Verification development for the regression-comparison core of the repository
(`scripts/compare_to_golden.py`): the fallback indentation-based plan parser,
the tolerance-rule table, and the report comparator.  Numeric values are
modelled in ℚ (the comparison logic is pure arithmetic over the parsed
numbers); Python dictionaries are modelled as ordered association lists with
insert-or-replace update, matching insertion-order semantics.
-/

/-! ## Association-list dictionaries -/

/-- Dictionary lookup (Python `d.get(k)` / `d[k]`): first entry whose key
matches. -/
def lookupStr {α : Type} : List (String × α) → String → Option α
  | [], _ => Option.none
  | e :: rest, k => if e.1 == k then some e.2 else lookupStr rest k

/-- Dictionary assignment `d[k] = v`: replace the value in place when the key
is present, append otherwise (Python dict insertion-order semantics; the lists
built by the embedding always have distinct keys). -/
def dictInsert {α : Type} : List (String × α) → String → α → List (String × α)
  | [], k, v => [(k, v)]
  | e :: rest, k, v => if e.1 == k then (k, v) :: rest else e :: dictInsert rest k v

/-! ## Character-level string primitives

Python string operations are modelled charwise over `String.toList`, keeping
every definition computable by kernel reduction. -/

def strContains (s : String) (c : Char) : Bool := s.toList.contains c

def trimChars (cs : List Char) : List Char :=
  ((cs.dropWhile Char.isWhitespace).reverse.dropWhile Char.isWhitespace).reverse

/-- Python `str.strip()` (whitespace on both sides). -/
def strTrim (s : String) : String := String.mk (trimChars s.toList)

/-- Python `str.startswith(c)` for a one-character prefix. -/
def strStartsWith (s : String) (c : Char) : Bool :=
  match s.toList with
  | [] => false
  | x :: _ => x == c

/-- Python `str.endswith(c)` for a one-character suffix. -/
def strEndsWith (s : String) (c : Char) : Bool :=
  match s.toList.reverse with
  | [] => false
  | x :: _ => x == c

def asciiLowerChar (c : Char) : Char :=
  if 'A' ≤ c ∧ c ≤ 'Z' then Char.ofNat (c.toNat + 32) else c

/-- Python `str.lower()` (ASCII range; only `true`/`false` detection needs
it). -/
def strToLower (s : String) : String := String.mk (s.toList.map asciiLowerChar)

/-- Python `str.replace(a, b)` for one-character patterns (used to normalise
single quotes to double quotes). -/
def strReplaceChar (s : String) (a b : Char) : String :=
  String.mk (s.toList.map (fun c => if c == a then b else c))

/-- Split at every occurrence of a character (Python `str.split(c)` /
`splitlines` for newline input). -/
def splitOnChar (c : Char) : List Char → List (List Char)
  | [] => [[]]
  | x :: rest =>
    match splitOnChar c rest with
    | [] => [[x]]
    | h :: t => if x == c then [] :: h :: t else (x :: h) :: t

/-- Split around the first occurrence of a character (Python
`str.split(c, 1)`); `Option.none` when the character is absent. -/
def breakAtChar (c : Char) : List Char → Option (List Char × List Char)
  | [] => Option.none
  | x :: rest =>
    if x == c then some ([], rest)
    else (breakAtChar c rest).map (fun p => (x :: p.1, p.2))

/-! ## Models of host-language numeric coercion -/

def digitsToNat (ds : List Char) : Nat :=
  ds.foldl (fun n c => 10 * n + (c.toNat - '0'.toNat)) 0

/-- Modelled from the spec: the host integer coercion `int(str)` (standard
library, outside this repository) — optional surrounding whitespace, optional
sign, a nonempty run of decimal digits. -/
def pyInt? (s : String) : Option Int :=
  let t := (strTrim s).toList
  let signAndDigits : Bool × List Char :=
    match t with
    | '-' :: r => (true, r)
    | '+' :: r => (false, r)
    | l => (false, l)
  let neg := signAndDigits.1
  let ds := signAndDigits.2
  if ds ≠ [] ∧ ds.all Char.isDigit then
    some ((if neg then -1 else 1) * (digitsToNat ds : Int))
  else
    none

def pow10 (n : Nat) : Rat := (10 : Rat) ^ n

def applyExp (q : Rat) (e : Int) : Rat :=
  if 0 ≤ e then q * pow10 e.toNat else q / pow10 (-e).toNat

/-- Modelled from the spec: the host floating-point coercion `float(str)`
(standard library, outside this repository) — optional sign, digits with an
optional decimal point (at least one digit overall), optional exponent part.
The result is kept exact in ℚ. -/
def pyFloat? (s : String) : Option Rat :=
  let t := (strTrim s).toList
  let signAndRest : Bool × List Char :=
    match t with
    | '-' :: r => (true, r)
    | '+' :: r => (false, r)
    | l => (false, l)
  let neg := signAndRest.1
  let cs := signAndRest.2
  let ip := cs.takeWhile Char.isDigit
  let cs1 := cs.dropWhile Char.isDigit
  let fracAndRest : List Char × List Char :=
    match cs1 with
    | '.' :: r => (r.takeWhile Char.isDigit, r.dropWhile Char.isDigit)
    | _ => ([], cs1)
  let fp := fracAndRest.1
  let cs2 := fracAndRest.2
  if ip = [] ∧ fp = [] then none
  else
    let mant0 : Rat := (digitsToNat (ip ++ fp) : Rat) / pow10 fp.length
    let mant := if neg then -mant0 else mant0
    match cs2 with
    | [] => some mant
    | 'e' :: r =>
      let esignAndDigits : Bool × List Char :=
        match r with
        | '-' :: r2 => (true, r2)
        | '+' :: r2 => (false, r2)
        | l => (false, l)
      if esignAndDigits.2 ≠ [] ∧ esignAndDigits.2.all Char.isDigit then
        some (applyExp mant
          (if esignAndDigits.1 then -(digitsToNat esignAndDigits.2 : Int)
           else (digitsToNat esignAndDigits.2 : Int)))
      else none
    | 'E' :: r =>
      let esignAndDigits : Bool × List Char :=
        match r with
        | '-' :: r2 => (true, r2)
        | '+' :: r2 => (false, r2)
        | l => (false, l)
      if esignAndDigits.2 ≠ [] ∧ esignAndDigits.2.all Char.isDigit then
        some (applyExp mant
          (if esignAndDigits.1 then -(digitsToNat esignAndDigits.2 : Int)
           else (digitsToNat esignAndDigits.2 : Int)))
      else none
    | _ => none

/-! ## Generic parsed values (`simple_yaml` output domain) -/

inductive PyVal where
  | none
  | bool (b : Bool)
  | int (n : Int)
  | float (q : Rat)
  | str (s : String)
  | list (xs : List PyVal)
  | dict (entries : List (String × PyVal))

/-- Python `str.strip(chr)` specialised to the double quote: remove every
leading and trailing `"` character. -/
def stripQuote (s : String) : String :=
  String.mk (((s.toList.dropWhile (fun c => c == '"')).reverse.dropWhile
    (fun c => c == '"')).reverse)

def jsonSkipWs (cs : List Char) : List Char :=
  cs.dropWhile (fun c => c == ' ' || c == '\t' || c == '\n' || c == '\r')

def jsonUnescape (c : Char) : Char :=
  if c == 'n' then '\n' else if c == 't' then '\t' else c

def jsonStringChars : Nat → List Char → Option (List Char × List Char)
  | 0, _ => Option.none
  | fuel + 1, cs =>
    match cs with
    | '"' :: rest => some ([], rest)
    | '\\' :: c :: rest =>
      (jsonStringChars fuel rest).map (fun p => (jsonUnescape c :: p.1, p.2))
    | c :: rest =>
      (jsonStringChars fuel rest).map (fun p => (c :: p.1, p.2))
    | [] => Option.none

def jsonNumChar (c : Char) : Bool :=
  c.isDigit || c == '-' || c == '+' || c == '.' || c == 'e' || c == 'E'

mutual

/-- Modelled from the spec: the bracketed branch of scalar parsing delegates
to the host JSON decoder (library `json.loads`, outside this repository,
applied after normalising single quotes to double quotes).  We model the JSON
value grammar: arrays, strings, booleans, null, numbers. -/
def jsonValue : Nat → List Char → Option (PyVal × List Char)
  | 0, _ => Option.none
  | fuel + 1, cs =>
    match jsonSkipWs cs with
    | '[' :: rest =>
      match jsonSkipWs rest with
      | ']' :: rest2 => some (.list [], rest2)
      | rest2 =>
        match jsonItems fuel rest2 with
        | some (vs, rest3) => some (.list vs, rest3)
        | Option.none => Option.none
    | '"' :: rest =>
      match jsonStringChars (fuel + 1) rest with
      | some (chars, rest2) => some (.str (String.mk chars), rest2)
      | Option.none => Option.none
    | 't' :: 'r' :: 'u' :: 'e' :: rest => some (.bool true, rest)
    | 'f' :: 'a' :: 'l' :: 's' :: 'e' :: rest => some (.bool false, rest)
    | 'n' :: 'u' :: 'l' :: 'l' :: rest => some (.none, rest)
    | cs2 =>
      let tok := cs2.takeWhile jsonNumChar
      let rest := cs2.dropWhile jsonNumChar
      if tok = [] then Option.none
      else if tok.contains '.' || tok.contains 'e' || tok.contains 'E' then
        match pyFloat? (String.mk tok) with
        | some q => some (.float q, rest)
        | Option.none => Option.none
      else
        match pyInt? (String.mk tok) with
        | some n => some (.int n, rest)
        | Option.none => Option.none

def jsonItems : Nat → List Char → Option (List PyVal × List Char)
  | 0, _ => Option.none
  | fuel + 1, cs =>
    match jsonValue fuel cs with
    | some (v, rest) =>
      match jsonSkipWs rest with
      | ',' :: rest2 =>
        match jsonItems fuel rest2 with
        | some (vs, rest3) => some (v :: vs, rest3)
        | Option.none => Option.none
      | ']' :: rest2 => some ([v], rest2)
      | _ => Option.none
    | Option.none => Option.none

end

def pyJsonLoads (s : String) : Option PyVal :=
  match jsonValue (2 * s.length + 2) s.toList with
  | some (v, rest) => if jsonSkipWs rest = [] then some v else Option.none
  | Option.none => Option.none

/-! ## Fallback plan parser (`simple_yaml`, `parse_block`, `split_key_value`,
`parse_scalar`) -/

def containsDotE (s : String) : Bool :=
  strContains s '.' || strContains s 'e' || strContains s 'E'

/-- `parse_scalar`: bracketed text goes to the JSON decoder with single quotes
normalised; `true`/`false` (case-insensitive) become booleans; text containing
`.`, `e` or `E` is tried as a float, other text as an int; on coercion failure
the text is returned with leading/trailing double quotes stripped.  A JSON
decode failure is fatal (uncaught exception in the source). -/
def parse_scalar (value : String) : Except String PyVal :=
  if strStartsWith value '[' && strEndsWith value ']' then
    match pyJsonLoads (strReplaceChar value '\'' '"') with
    | some v => .ok v
    | Option.none => .error ("invalid list literal: " ++ value)
  else if strToLower value == "true" || strToLower value == "false" then
    .ok (.bool (strToLower value == "true"))
  else if containsDotE value then
    match pyFloat? value with
    | some q => .ok (.float q)
    | Option.none => .ok (.str (stripQuote value))
  else
    match pyInt? value with
    | some n => .ok (.int n)
    | Option.none => .ok (.str (stripQuote value))

/-- `split_key_value`: split on the first colon; a line without a colon is a
fatal error; an empty remainder signals a nested block. -/
def split_key_value (line : String) : Except String (String × Option String) :=
  match breakAtChar ':' line.toList with
  | Option.none => .error ("expected key: value pair, got " ++ line)
  | some (k, r) =>
    let key := String.mk k
    let rest := strTrim (String.mk r)
    if rest == "" then .ok (key, Option.none) else .ok (key, some rest)

/-- Leading-whitespace width of a line (`len(line) - len(line.lstrip())`). -/
def leadingWS (s : String) : Nat :=
  (s.toList.takeWhile Char.isWhitespace).length

/-- `parse_block`: the recursive indentation parser.  The while-loop is the
tail recursion on the line index; `fuel` only bounds the recursion depth (the
index strictly increases on every recursive call, so any fuel above the line
count is enough) and exhaustion is reported as an error, never as a result. -/
def parseBlock (lines : List String) :
    Nat → Nat → Nat → List (String × PyVal) →
    Except String (List (String × PyVal) × Nat)
  | 0, _, _, _ => .error "parser fuel exhausted"
  | fuel + 1, i, indent, acc =>
    if h : i < lines.length then
      let line := lines.get ⟨i, h⟩
      let ci := leadingWS line
      if ci < indent then .ok (acc, i)
      else if ci > indent then .error ("invalid indentation on line: " ++ line)
      else
        match split_key_value (strTrim line) with
        | .error e => .error e
        | .ok (key, Option.none) =>
          match parseBlock lines fuel (i + 1) (indent + 2) [] with
          | .error e => .error e
          | .ok (value, next) =>
            parseBlock lines fuel next indent (dictInsert acc key (.dict value))
        | .ok (key, some rest) =>
          match parse_scalar rest with
          | .error e => .error e
          | .ok v => parseBlock lines fuel (i + 1) indent (dictInsert acc key v)
    else .ok (acc, i)

/-- `simple_yaml`: drop blank and comment lines, parse the whole text as a
mapping at indentation 0. -/
def simple_yaml (text : String) : Except String (List (String × PyVal)) :=
  let lines := ((splitOnChar '\n' text.toList).map String.mk).filter
    (fun l => !(strTrim l == "") && !(strStartsWith (strTrim l) '#'))
  match parseBlock lines (lines.length + 2) 0 0 [] with
  | .error e => .error e
  | .ok (m, _) => .ok m

/-! ## Tolerance rules -/

def DEFAULT_ABS_TOL : Rat := 1 / 1000000000

def DEFAULT_REL_TOL : Rat := 1 / 1000

structure Tolerance where
  min : Option Rat
  max : Option Rat
  abs : Rat
  rel : Rat
deriving DecidableEq

/-- The dataclass defaults: `Tolerance()`. -/
def Tolerance.default : Tolerance :=
  ⟨Option.none, Option.none, DEFAULT_ABS_TOL, DEFAULT_REL_TOL⟩

/-- Numeric reading of a parsed value (tolerance components live in ℚ; a
Python bool is numeric). -/
def asNum? : PyVal → Option Rat
  | .int n => some (n : Rat)
  | .float q => some q
  | .bool b => some (if b then 1 else 0)
  | _ => Option.none

/-- `Tolerance.from_mapping`: `min`/`max` default to absent, `abs`/`rel` to
the module defaults. -/
def Tolerance.from_mapping (m : List (String × PyVal)) : Tolerance :=
  ⟨(lookupStr m "min").bind asNum?,
   (lookupStr m "max").bind asNum?,
   ((lookupStr m "abs").bind asNum?).getD DEFAULT_ABS_TOL,
   ((lookupStr m "rel").bind asNum?).getD DEFAULT_REL_TOL⟩

/-- Python truthiness of a parsed value (for `raw = plan.get(...) or ...`). -/
def isFalsy : PyVal → Bool
  | .none => true
  | .bool b => !b
  | .int n => n == 0
  | .float q => q == 0
  | .str s => s == ""
  | .list xs => xs.isEmpty
  | .dict es => es.isEmpty

/-- The per-entry rule: a mapping goes through `from_mapping`, anything else
gets the default rule. -/
def ruleOf : PyVal → Tolerance
  | .dict m => Tolerance.from_mapping m
  | _ => Tolerance.default

/-- `collect_tolerances`: `raw = plan.get("tolerances", ..) or ..`; iterating
a truthy non-mapping raises (AttributeError in the source). -/
def collect_tolerances (plan : List (String × PyVal)) :
    Except String (List (String × Tolerance)) :=
  let raw0 := (lookupStr plan "tolerances").getD (PyVal.dict [])
  let raw := if isFalsy raw0 then PyVal.dict [] else raw0
  match raw with
  | .dict entries =>
    .ok (entries.foldl (fun acc e => dictInsert acc e.1 (ruleOf e.2)) [])
  | _ => .error "tolerances value is not a mapping"

/-- `tolerances.get(name, Tolerance())`. -/
def resolveTol (tols : List (String × Tolerance)) (name : String) : Tolerance :=
  (lookupStr tols name).getD Tolerance.default

/-! ## Reports and the comparator -/

/-- A metric payload (`metrics.kpis` entry).  `value` is the result of the
host float coercion: `some q` when `float(payload.get("value"))` succeeds
with value `q`, `Option.none` when the key is absent or the coercion fails.
The producer may also ship a `pass` flag. -/
structure Payload where
  value : Option Rat
  pass : Option Bool
deriving DecidableEq

/-- One job; `kpis` models `job.get("metrics", ..).get("kpis", ..)`. -/
structure Job where
  kpis : List (String × Payload)
deriving DecidableEq

structure Report where
  jobs : List Job
deriving DecidableEq

structure DiffEntry where
  report : Rat
  golden : Rat
  abs_delta : Rat
  allowed : Rat
  within_delta : Bool
  within_bounds : Bool
  pass : Bool
deriving DecidableEq

structure JobDiff where
  job : Nat
  metrics : List (String × DiffEntry)
deriving DecidableEq

inductive CompareResult where
  | mismatch (report : Nat) (golden : Nat)
  | diffs (jobs : List JobDiff)
deriving DecidableEq

/-- `float(...)` on an already-modelled optional number: absence or a
non-coercible value raises (fatal in the source). -/
def coerceValue : Option Rat → Except String Rat
  | some q => .ok q
  | Option.none => .error "NonNumericMetric"

/-- `kpis_report.get(name, ..).get("value")`. -/
def valueFor (kpisR : List (String × Payload)) (name : String) : Option Rat :=
  match lookupStr kpisR name with
  | some p => p.value
  | Option.none => Option.none

/-- The per-metric body of the comparison loop (lines 137–155 of the source):
delta, allowance, bound checks, recorded entry. -/
def compareMetric (tol : Tolerance) (golden_value report_value : Rat) : DiffEntry :=
  let abs_delta := |report_value - golden_value|
  let allowed := tol.abs + tol.rel * |golden_value|
  let within := decide (abs_delta ≤ allowed)
  let wb0 := true
  let wb1 :=
    match tol.min with
    | some m => if report_value + tol.abs < m then false else wb0
    | Option.none => wb0
  let wb2 :=
    match tol.max with
    | some m => if report_value - tol.abs > m then false else wb1
    | Option.none => wb1
  ⟨report_value, golden_value, abs_delta, allowed, within, wb2, within && wb2⟩

/-- The metric loop over the golden kpis: golden value coerced first, then the
candidate value is read and coerced; `ok` accumulates, entries accumulate by
dict assignment. -/
def compareKpis (tols : List (String × Tolerance))
    (kpisR : List (String × Payload)) :
    List (String × Payload) → Bool → List (String × DiffEntry) →
    Except String (Bool × List (String × DiffEntry))
  | [], ok, acc => .ok (ok, acc)
  | (name, gp) :: rest, ok, acc =>
    match coerceValue gp.value with
    | .error e => .error e
    | .ok g =>
      match coerceValue (valueFor kpisR name) with
      | .error e => .error e
      | .ok r =>
        let ent := compareMetric (resolveTol tols name) g r
        compareKpis tols kpisR rest (ok && ent.pass) (dictInsert acc name ent)

/-- The job loop over the zipped job pairs. -/
def compareJobs (tols : List (String × Tolerance)) :
    List (Job × Job) → Nat → Bool → Except String (Bool × List JobDiff)
  | [], _, ok => .ok (ok, [])
  | (jr, jg) :: rest, idx, ok =>
    match compareKpis tols jr.kpis jg.kpis ok [] with
    | .error e => .error e
    | .ok (ok1, metrics) =>
      match compareJobs tols rest (idx + 1) ok1 with
      | .error e => .error e
      | .ok (okF, restDiffs) => .ok (okF, ⟨idx, metrics⟩ :: restDiffs)

namespace Golden

/-- `compare`: job-count guard, then the per-job metric loops.  A count
mismatch is returned as a failing result (not an exception); metric coercion
failures propagate as errors.  (Namespaced to avoid the core `Ord.compare`.) -/
def compare (report golden : Report) (tols : List (String × Tolerance)) :
    Except String (Bool × CompareResult) :=
  if report.jobs.length ≠ golden.jobs.length then
    .ok (false, .mismatch report.jobs.length golden.jobs.length)
  else
    match compareJobs tols (report.jobs.zip golden.jobs) 0 true with
    | .error e => .error e
    | .ok (ok, jds) => .ok (ok, .diffs jds)

end Golden

/-- Modelled from the spec: the reading of scalar-string handling claimed by
the specification — exactly one layer of surrounding double quotes removed
when the text is so wrapped, otherwise the text unchanged. -/
def stripOneLayer (s : String) : String :=
  match s.toList with
  | '"' :: rest =>
    match rest.reverse with
    | '"' :: mid => String.mk mid.reverse
    | _ => s
  | _ => s

/-- Erase the informational `pass` flag of a payload. -/
def stripPayload (p : Payload) : Payload := ⟨p.value, Option.none⟩

def stripJob (j : Job) : Job :=
  ⟨j.kpis.map (fun e => (e.1, stripPayload e.2))⟩

/-- A report up to its informational `pass` flags. -/
def stripReport (r : Report) : Report := ⟨r.jobs.map stripJob⟩

/-! ## Helper lemmas -/

theorem lookupStr_dictInsert {α : Type} (d : List (String × α)) (k : String)
    (v : α) (m : String) :
    lookupStr (dictInsert d k v) m = if m = k then some v else lookupStr d m := by
  induction d with
  | nil =>
    by_cases h : m = k
    · subst h; simp [dictInsert, lookupStr]
    · have hk : (k == m) = false := beq_eq_false_iff_ne.mpr (Ne.symm h)
      simp [dictInsert, lookupStr, hk, h]
  | cons e rest ih =>
    by_cases hek : e.1 = k
    · have hb : (e.1 == k) = true := beq_iff_eq.mpr hek
      by_cases hmk : m = k
      · subst hmk
        simp [dictInsert, hb, lookupStr]
      · have hk : (k == m) = false := beq_eq_false_iff_ne.mpr (Ne.symm hmk)
        have he : (e.1 == m) = false := by
          refine beq_eq_false_iff_ne.mpr ?_
          rw [hek]; exact Ne.symm hmk
        simp [dictInsert, hb, lookupStr, hk, he, hmk]
    · have hb : (e.1 == k) = false := beq_eq_false_iff_ne.mpr hek
      by_cases hem : e.1 = m
      · have he : (e.1 == m) = true := beq_iff_eq.mpr hem
        have hmk : ¬m = k := fun h => hek (h ▸ hem)
        simp [dictInsert, hb, lookupStr, he, hmk]
      · have he : (e.1 == m) = false := beq_eq_false_iff_ne.mpr hem
        simp [dictInsert, hb, lookupStr, he, ih]

theorem mem_dictInsert {α : Type} (d : List (String × α)) (k : String) (v : α)
    (m : String) (x : α) (h : (m, x) ∈ dictInsert d k v) :
    (m = k ∧ x = v) ∨ (m, x) ∈ d := by
  induction d with
  | nil =>
    simp only [dictInsert, List.mem_singleton] at h
    exact Or.inl (by
      have h1 := congrArg Prod.fst h
      have h2 := congrArg Prod.snd h
      exact ⟨h1, h2⟩)
  | cons e rest ih =>
    simp only [dictInsert] at h
    by_cases hek : e.1 = k
    · rw [if_pos (by simpa using hek)] at h
      rcases List.mem_cons.mp h with h1 | h2
      · exact Or.inl ⟨congrArg Prod.fst h1, congrArg Prod.snd h1⟩
      · exact Or.inr (List.mem_cons_of_mem _ h2)
    · rw [if_neg (by simpa using hek)] at h
      rcases List.mem_cons.mp h with h1 | h2
      · exact Or.inr (h1 ▸ List.mem_cons_self _ _)
      · rcases ih h2 with h3 | h4
        · exact Or.inl h3
        · exact Or.inr (List.mem_cons_of_mem _ h4)

theorem compareMetric_report (tol : Tolerance) (g r : Rat) :
    (compareMetric tol g r).report = r := rfl

theorem compareMetric_golden (tol : Tolerance) (g r : Rat) :
    (compareMetric tol g r).golden = g := rfl

theorem compareMetric_abs_delta (tol : Tolerance) (g r : Rat) :
    (compareMetric tol g r).abs_delta = |r - g| := rfl

theorem compareMetric_allowed (tol : Tolerance) (g r : Rat) :
    (compareMetric tol g r).allowed = tol.abs + tol.rel * |g| := rfl

theorem compareMetric_within_delta (tol : Tolerance) (g r : Rat) :
    (compareMetric tol g r).within_delta = decide (|r - g| ≤ tol.abs + tol.rel * |g|) := rfl

theorem compareMetric_pass (tol : Tolerance) (g r : Rat) :
    (compareMetric tol g r).pass =
      ((compareMetric tol g r).within_delta && (compareMetric tol g r).within_bounds) := rfl

theorem compareMetric_within_bounds_false_iff (tol : Tolerance) (g r : Rat) :
    (compareMetric tol g r).within_bounds = false ↔
      ((∃ m, tol.min = some m ∧ r + tol.abs < m) ∨
       (∃ m, tol.max = some m ∧ r - tol.abs > m)) := by
  obtain ⟨mn, mx, ab, rl⟩ := tol
  simp only [compareMetric]
  cases mn with
  | none =>
    cases mx with
    | none => simp
    | some M =>
      by_cases hM : r - ab > M
      · simp [hM]
      · simp [hM]
  | some m =>
    cases mx with
    | none =>
      by_cases hm : r + ab < m
      · simp [hm]
      · simp [hm]
    | some M =>
      by_cases hm : r + ab < m
      · by_cases hM : r - ab > M
        · simp [hm, hM]
        · simp [hm, hM]
      · by_cases hM : r - ab > M
        · simp [hm, hM]
        · simp [hm, hM]

theorem compareKpis_mem (tols : List (String × Tolerance))
    (kpisR : List (String × Payload)) :
    ∀ (kpisG : List (String × Payload)) (ok : Bool)
      (acc ms : List (String × DiffEntry)) (b : Bool),
      compareKpis tols kpisR kpisG ok acc = .ok (b, ms) →
      ∀ name ent, (name, ent) ∈ ms →
        (name, ent) ∈ acc ∨
        (name ∈ kpisG.map Prod.fst ∧
         ent = compareMetric (resolveTol tols name) ent.golden ent.report) := by
  intro kpisG
  induction kpisG with
  | nil =>
    intro ok acc ms b h name ent hm
    simp only [compareKpis] at h
    have h1 : acc = ms := congrArg Prod.snd (Except.ok.inj h)
    exact Or.inl (h1 ▸ hm)
  | cons e rest ih =>
    obtain ⟨n, gp⟩ := e
    intro ok acc ms b h name ent hm
    simp only [compareKpis] at h
    cases hg : coerceValue gp.value with
    | error s => rw [hg] at h; exact absurd h (by simp)
    | ok g =>
      rw [hg] at h
      cases hr : coerceValue (valueFor kpisR n) with
      | error s => rw [hr] at h; exact absurd h (by simp)
      | ok r =>
        rw [hr] at h
        have h2 := ih _ _ _ _ h name ent hm
        rcases h2 with hin | ⟨hn, hshape⟩
        · rcases mem_dictInsert _ _ _ _ _ hin with ⟨hnk, hev⟩ | hacc
          · subst hnk
            refine Or.inr ⟨by simp, ?_⟩
            have hgf : ent.golden = g := by rw [hev, compareMetric_golden]
            have hrf : ent.report = r := by rw [hev, compareMetric_report]
            rw [hgf, hrf]
            exact hev
          · exact Or.inl hacc
        · exact Or.inr ⟨by simp [hn], hshape⟩

theorem compareKpis_err (tols : List (String × Tolerance))
    (kpisR : List (String × Payload)) :
    ∀ (kpisG : List (String × Payload)) (ok : Bool)
      (acc : List (String × DiffEntry)) (name : String) (gp : Payload),
      (name, gp) ∈ kpisG → valueFor kpisR name = Option.none →
      ∃ msg, compareKpis tols kpisR kpisG ok acc = .error msg := by
  intro kpisG
  induction kpisG with
  | nil => intro _ _ _ _ hm _; simp at hm
  | cons e rest ih =>
    obtain ⟨n, p⟩ := e
    intro ok acc name gp hm hv
    simp only [compareKpis]
    cases hg : coerceValue p.value with
    | error s => exact ⟨s, rfl⟩
    | ok g =>
      cases hr : coerceValue (valueFor kpisR n) with
      | error s => exact ⟨s, rfl⟩
      | ok r =>
        rcases List.mem_cons.mp hm with heq | hrest
        · have hnn : name = n := (Prod.mk.injEq _ _ _ _ ▸ heq).1
          rw [← hnn, hv] at hr
          exact absurd hr (by simp [coerceValue])
        · exact ih _ _ name gp hrest hv

theorem compareJobs_err (tols : List (String × Tolerance)) :
    ∀ (pairs : List (Job × Job)) (idx : Nat) (ok : Bool) (jr jg : Job)
      (name : String) (gp : Payload),
      (jr, jg) ∈ pairs → (name, gp) ∈ jg.kpis →
      valueFor jr.kpis name = Option.none →
      ∃ msg, compareJobs tols pairs idx ok = .error msg := by
  intro pairs
  induction pairs with
  | nil => intro _ _ _ _ _ _ hm _ _; simp at hm
  | cons e rest ih =>
    obtain ⟨r0, g0⟩ := e
    intro idx ok jr jg name gp hm hk hv
    simp only [compareJobs]
    cases hc : compareKpis tols r0.kpis g0.kpis ok [] with
    | error s => exact ⟨s, rfl⟩
    | ok p =>
      obtain ⟨ok1, metrics⟩ := p
      rcases List.mem_cons.mp hm with heq | hrest
      · have hjr : jr = r0 := (Prod.mk.injEq _ _ _ _ ▸ heq).1
        have hjg : jg = g0 := (Prod.mk.injEq _ _ _ _ ▸ heq).2
        subst hjr; subst hjg
        obtain ⟨msg, hmsg⟩ := compareKpis_err tols jr.kpis jg.kpis ok [] name gp hk hv
        rw [hmsg] at hc
        exact absurd hc (by simp)
      · obtain ⟨msg, hmsg⟩ := ih (idx + 1) ok1 jr jg name gp hrest hk hv
        refine ⟨msg, ?_⟩
        show (match compareJobs tols rest (idx + 1) ok1 with
          | Except.error e => Except.error e
          | Except.ok (okF, restDiffs) =>
            Except.ok (okF, (⟨idx, metrics⟩ : JobDiff) :: restDiffs)) =
          Except.error msg
        rw [hmsg]

theorem compareJobs_mem (tols : List (String × Tolerance)) :
    ∀ (pairs : List (Job × Job)) (idx : Nat) (ok b : Bool) (jds : List JobDiff),
      compareJobs tols pairs idx ok = .ok (b, jds) →
      ∀ jd ∈ jds, ∀ name ent, (name, ent) ∈ jd.metrics →
        ent = compareMetric (resolveTol tols name) ent.golden ent.report := by
  intro pairs
  induction pairs with
  | nil =>
    intro idx ok b jds h jd hjd name ent hm
    simp only [compareJobs] at h
    have h1 : ([] : List JobDiff) = jds := congrArg Prod.snd (Except.ok.inj h)
    rw [← h1] at hjd
    simp at hjd
  | cons e rest ih =>
    obtain ⟨r0, g0⟩ := e
    intro idx ok b jds h jd hjd name ent hm
    simp only [compareJobs] at h
    cases hc : compareKpis tols r0.kpis g0.kpis ok [] with
    | error s => rw [hc] at h; exact absurd h (by simp)
    | ok p =>
      obtain ⟨ok1, metrics⟩ := p
      rw [hc] at h
      have h' : (match compareJobs tols rest (idx + 1) ok1 with
          | Except.error e => Except.error e
          | Except.ok (okF, restDiffs) =>
            Except.ok (okF, (⟨idx, metrics⟩ : JobDiff) :: restDiffs)) =
          Except.ok (b, jds) := h
      cases hj : compareJobs tols rest (idx + 1) ok1 with
      | error s => rw [hj] at h'; exact absurd h' (by simp)
      | ok q =>
        obtain ⟨okF, restDiffs⟩ := q
        rw [hj] at h'
        have h1 : (⟨idx, metrics⟩ : JobDiff) :: restDiffs = jds :=
          congrArg Prod.snd (Except.ok.inj h')
        have hb : okF = b := congrArg Prod.fst (Except.ok.inj h')
        rw [hb] at hj
        rw [← h1] at hjd
        rcases List.mem_cons.mp hjd with hhead | htail
        · subst hhead
          have h2 := compareKpis_mem tols r0.kpis g0.kpis ok [] metrics ok1 hc name ent hm
          rcases h2 with hin | ⟨_, hshape⟩
          · simp at hin
          · exact hshape
        · exact ih (idx + 1) ok1 b restDiffs hj jd htail name ent hm

theorem compareJobs_names (tols : List (String × Tolerance)) :
    ∀ (pairs : List (Job × Job)) (idx : Nat) (ok b : Bool) (jds : List JobDiff),
      compareJobs tols pairs idx ok = .ok (b, jds) →
      jds.length = pairs.length ∧
      ∀ (k : Nat) (hk : k < jds.length) (hk2 : k < pairs.length)
        (name : String) (ent : DiffEntry),
        (name, ent) ∈ (jds.get ⟨k, hk⟩).metrics →
        name ∈ ((pairs.get ⟨k, hk2⟩).2.kpis.map Prod.fst) := by
  intro pairs
  induction pairs with
  | nil =>
    intro idx ok b jds h
    simp only [compareJobs] at h
    have h1 : ([] : List JobDiff) = jds := congrArg Prod.snd (Except.ok.inj h)
    subst h1
    exact ⟨rfl, fun k hk => absurd hk (by simp)⟩
  | cons e rest ih =>
    obtain ⟨r0, g0⟩ := e
    intro idx ok b jds h
    simp only [compareJobs] at h
    cases hc : compareKpis tols r0.kpis g0.kpis ok [] with
    | error s => rw [hc] at h; exact absurd h (by simp)
    | ok p =>
      obtain ⟨ok1, metrics⟩ := p
      rw [hc] at h
      have h' : (match compareJobs tols rest (idx + 1) ok1 with
          | Except.error e => Except.error e
          | Except.ok (okF, restDiffs) =>
            Except.ok (okF, (⟨idx, metrics⟩ : JobDiff) :: restDiffs)) =
          Except.ok (b, jds) := h
      cases hj : compareJobs tols rest (idx + 1) ok1 with
      | error s => rw [hj] at h'; exact absurd h' (by simp)
      | ok q =>
        obtain ⟨okF, restDiffs⟩ := q
        rw [hj] at h'
        have h1 : (⟨idx, metrics⟩ : JobDiff) :: restDiffs = jds :=
          congrArg Prod.snd (Except.ok.inj h')
        subst h1
        have hb : okF = b := congrArg Prod.fst (Except.ok.inj h')
        rw [hb] at hj
        obtain ⟨hlen, hidx⟩ := ih (idx + 1) ok1 b restDiffs hj
        refine ⟨by simp [hlen], ?_⟩
        intro k hk hk2 name ent hm
        cases k with
        | zero =>
          simp only [List.get] at hm ⊢
          have h2 := compareKpis_mem tols r0.kpis g0.kpis ok [] metrics ok1 hc name ent hm
          rcases h2 with hin | ⟨hn, _⟩
          · simp at hin
          · simpa using hn
        | succ k0 =>
          simp only [List.get] at hm ⊢
          exact hidx k0 (by simpa using hk) (by simpa using hk2) name ent hm

theorem lookupStr_map_strip (kpis : List (String × Payload)) (name : String) :
    lookupStr (kpis.map (fun e => (e.1, stripPayload e.2))) name =
      (lookupStr kpis name).map stripPayload := by
  induction kpis with
  | nil => rfl
  | cons e rest ih =>
    simp only [List.map, lookupStr]
    by_cases h : e.1 = name
    · have hb : (e.1 == name) = true := beq_iff_eq.mpr h
      simp [hb]
    · have hb : (e.1 == name) = false := beq_eq_false_iff_ne.mpr h
      simp [hb, ih]

theorem stripPayload_value (p : Payload) : (stripPayload p).value = p.value := rfl

theorem valueFor_strip (kpis : List (String × Payload)) (name : String) :
    valueFor (kpis.map (fun e => (e.1, stripPayload e.2))) name = valueFor kpis name := by
  simp only [valueFor, lookupStr_map_strip]
  cases lookupStr kpis name with
  | none => rfl
  | some p => rfl

theorem compareKpis_strip (tols : List (String × Tolerance)) :
    ∀ (kpisG kpisR : List (String × Payload)) (ok : Bool)
      (acc : List (String × DiffEntry)),
      compareKpis tols (kpisR.map (fun e => (e.1, stripPayload e.2)))
          (kpisG.map (fun e => (e.1, stripPayload e.2))) ok acc =
        compareKpis tols kpisR kpisG ok acc := by
  intro kpisG
  induction kpisG with
  | nil => intro kpisR ok acc; rfl
  | cons e rest ih =>
    obtain ⟨n, gp⟩ := e
    intro kpisR ok acc
    simp only [List.map, compareKpis, stripPayload_value, valueFor_strip]
    cases coerceValue gp.value with
    | error s => rfl
    | ok g =>
      cases coerceValue (valueFor kpisR n) with
      | error s => rfl
      | ok r => exact ih kpisR _ _

theorem stripJob_kpis (j : Job) :
    (stripJob j).kpis = j.kpis.map (fun e => (e.1, stripPayload e.2)) := rfl

theorem compareJobs_strip (tols : List (String × Tolerance)) :
    ∀ (pairs : List (Job × Job)) (idx : Nat) (ok : Bool),
      compareJobs tols (pairs.map (fun p => (stripJob p.1, stripJob p.2))) idx ok =
        compareJobs tols pairs idx ok := by
  intro pairs
  induction pairs with
  | nil => intro idx ok; rfl
  | cons e rest ih =>
    obtain ⟨jr, jg⟩ := e
    intro idx ok
    simp only [List.map, compareJobs, stripJob_kpis, compareKpis_strip, ih]

theorem compare_strip (r g : Report) (tols : List (String × Tolerance)) :
    Golden.compare (stripReport r) (stripReport g) tols = Golden.compare r g tols := by
  simp only [Golden.compare, stripReport, List.length_map]
  by_cases h : r.jobs.length = g.jobs.length
  · rw [if_neg (by simp [h]), if_neg (by simp [h])]
    have hz : (r.jobs.map stripJob).zip (g.jobs.map stripJob) =
        (r.jobs.zip g.jobs).map (fun p => (stripJob p.1, stripJob p.2)) := by
      rw [List.zip_map]
      rfl
    rw [hz, compareJobs_strip]
  · rw [if_pos (by simp [h]), if_pos (by simp [h])]

theorem lookupStr_fold_no_key (f : String × PyVal → Tolerance) (name : String) :
    ∀ (entries : List (String × PyVal)) (acc : List (String × Tolerance)),
      (∀ x ∈ entries, ¬x.1 = name) →
      lookupStr (entries.foldl (fun a e => dictInsert a e.1 (f e)) acc) name =
        lookupStr acc name := by
  intro entries
  induction entries with
  | nil => intro acc _; rfl
  | cons e rest ih =>
    intro acc hne
    simp only [List.foldl]
    rw [ih _ (fun x hx => hne x (List.mem_cons_of_mem _ hx))]
    rw [lookupStr_dictInsert]
    exact if_neg (fun h => hne e (List.mem_cons_self _ _) h.symm)

theorem lookupStr_fold_dictInsert (f : String × PyVal → Tolerance) (name : String)
    (s : PyVal) :
    ∀ (entries : List (String × PyVal)) (acc : List (String × Tolerance)),
      entries.filter (fun e => e.1 == name) = [(name, s)] →
      lookupStr (entries.foldl (fun a e => dictInsert a e.1 (f e)) acc) name =
        some (f (name, s)) := by
  intro entries
  induction entries with
  | nil => intro acc h; simp at h
  | cons e rest ih =>
    intro acc h
    by_cases hk : e.1 = name
    · have hb : (e.1 == name) = true := beq_iff_eq.mpr hk
      rw [List.filter_cons_of_pos (by simpa using hb)] at h
      have he : e = (name, s) := (List.cons.injEq _ _ _ _ ▸ h).1
      have hrest : rest.filter (fun e => e.1 == name) = [] :=
        (List.cons.injEq _ _ _ _ ▸ h).2
      have hnone : ∀ x ∈ rest, ¬x.1 = name := by
        intro x hx hxn
        have : x ∈ rest.filter (fun e => e.1 == name) :=
          List.mem_filter.mpr ⟨hx, by simpa using hxn⟩
        rw [hrest] at this
        simp at this
      simp only [List.foldl]
      rw [lookupStr_fold_no_key f name rest _ hnone]
      rw [he, lookupStr_dictInsert]
      simp
    · have hb : (e.1 == name) = false := beq_eq_false_iff_ne.mpr hk
      rw [List.filter_cons_of_neg (by simpa using hb)] at h
      simp only [List.foldl]
      exact ih _ h

theorem compare_entry_shape (R G : Report) (tols : List (String × Tolerance))
    (b : Bool) (jds : List JobDiff)
    (h : Golden.compare R G tols = .ok (b, .diffs jds)) :
    ∀ jd ∈ jds, ∀ name ent, (name, ent) ∈ jd.metrics →
      ent = compareMetric (resolveTol tols name) ent.golden ent.report := by
  simp only [Golden.compare] at h
  by_cases hlen : R.jobs.length ≠ G.jobs.length
  · rw [if_pos hlen] at h
    have h2 : CompareResult.mismatch R.jobs.length G.jobs.length =
        CompareResult.diffs jds := congrArg Prod.snd (Except.ok.inj h)
    exact absurd h2 (by simp)
  · rw [if_neg hlen] at h
    cases hj : compareJobs tols (R.jobs.zip G.jobs) 0 true with
    | error s => rw [hj] at h; exact absurd h (by simp)
    | ok p =>
      obtain ⟨okv, jds'⟩ := p
      rw [hj] at h
      have h2 : CompareResult.diffs jds' = CompareResult.diffs jds :=
        congrArg Prod.snd (Except.ok.inj h)
      have h3 : jds' = jds := by injection h2
      subst h3
      exact compareJobs_mem tols _ 0 true okv _ hj

theorem compare_err (R G : Report) (tols : List (String × Tolerance))
    (jr jg : Job) (name : String) (gp : Payload)
    (hlen : R.jobs.length = G.jobs.length)
    (hpair : (jr, jg) ∈ R.jobs.zip G.jobs)
    (hg : (name, gp) ∈ jg.kpis)
    (hv : valueFor jr.kpis name = Option.none) :
    ∃ msg, Golden.compare R G tols = .error msg := by
  obtain ⟨msg, hmsg⟩ := compareJobs_err tols (R.jobs.zip G.jobs) 0 true jr jg name gp hpair hg hv
  refine ⟨msg, ?_⟩
  simp only [Golden.compare]
  rw [if_neg (by simp [hlen]), hmsg]

theorem compare_names (R G : Report) (tols : List (String × Tolerance))
    (b : Bool) (jds : List JobDiff)
    (h : Golden.compare R G tols = .ok (b, .diffs jds)) :
    jds.length = (R.jobs.zip G.jobs).length ∧
    ∀ (k : Nat) (hk : k < jds.length) (hk2 : k < (R.jobs.zip G.jobs).length)
      (name : String) (ent : DiffEntry),
      (name, ent) ∈ (jds.get ⟨k, hk⟩).metrics →
      name ∈ (((R.jobs.zip G.jobs).get ⟨k, hk2⟩).2.kpis.map Prod.fst) := by
  simp only [Golden.compare] at h
  by_cases hlen : R.jobs.length ≠ G.jobs.length
  · rw [if_pos hlen] at h
    have h2 : CompareResult.mismatch R.jobs.length G.jobs.length =
        CompareResult.diffs jds := congrArg Prod.snd (Except.ok.inj h)
    exact absurd h2 (by simp)
  · rw [if_neg hlen] at h
    cases hj : compareJobs tols (R.jobs.zip G.jobs) 0 true with
    | error s => rw [hj] at h; exact absurd h (by simp)
    | ok p =>
      obtain ⟨okv, jds'⟩ := p
      rw [hj] at h
      have h2 : CompareResult.diffs jds' = CompareResult.diffs jds :=
        congrArg Prod.snd (Except.ok.inj h)
      have h3 : jds' = jds := by injection h2
      subst h3
      exact compareJobs_names tols _ 0 true okv _ hj

/-! ## The claims -/

/-- C2: whenever the candidate and golden reports disagree on job count, the
comparison returns immediately with the `job_count_mismatch` result carrying
both counts and a `false` verdict; no per-metric comparison is attempted (the
result holds for arbitrary, even non-coercible, job contents, and the
mismatch result carries no diff entries). -/
theorem claimC2 (R G : Report) (tols : List (String × Tolerance))
    (h : R.jobs.length ≠ G.jobs.length) :
    Golden.compare R G tols =
      .ok (false, .mismatch R.jobs.length G.jobs.length) := by
  simp only [Golden.compare]
  rw [if_pos h]

/-- C2 witness: a 3-job candidate against a 2-job golden yields
`report = 3, golden = 2` and a failing verdict. -/
theorem claimC2_witness :
    Golden.compare ⟨[⟨[]⟩, ⟨[]⟩, ⟨[]⟩]⟩ ⟨[⟨[]⟩, ⟨[]⟩]⟩ [] =
      .ok (false, .mismatch 3 2) :=
  claimC2 ⟨[⟨[]⟩, ⟨[]⟩, ⟨[]⟩]⟩ ⟨[⟨[]⟩, ⟨[]⟩]⟩ [] (by decide)

/-- C5: a metric name that is absent from the tolerance table resolves (via
`tolerances.get(name, Tolerance())`, the resolution used by the comparator
for every metric) to the default rule `absolute = 1e-9`, `relative = 1e-3`,
`min = None`, `max = None`. -/
theorem claimC5 (tols : List (String × Tolerance)) (name : String)
    (h : lookupStr tols name = Option.none) :
    resolveTol tols name =
      ⟨Option.none, Option.none, 1 / 1000000000, 1 / 1000⟩ := by
  simp only [resolveTol, h]
  rfl

/-- C5 witness: resolution against the empty table. -/
theorem claimC5_witness :
    resolveTol [] "energy" =
      ⟨Option.none, Option.none, 1 / 1000000000, 1 / 1000⟩ :=
  claimC5 [] "energy" rfl

/-- C4: every recorded diff entry satisfies `abs_delta = |r - g|`,
`allowed = rule.absolute + rule.relative * |g|` (relative slack scaled by the
golden value), and `within_delta = (abs_delta <= allowed)`; in particular the
comparison is inclusive: `abs_delta = allowed` gives `within_delta = true`. -/
theorem claimC4 (R G : Report) (tols : List (String × Tolerance)) (b : Bool)
    (jds : List JobDiff) (jd : JobDiff) (name : String) (ent : DiffEntry)
    (hc : Golden.compare R G tols = .ok (b, .diffs jds))
    (hjd : jd ∈ jds) (hm : (name, ent) ∈ jd.metrics) :
    ent.abs_delta = |ent.report - ent.golden| ∧
    ent.allowed = (resolveTol tols name).abs + (resolveTol tols name).rel * |ent.golden| ∧
    (ent.within_delta = true ↔ ent.abs_delta ≤ ent.allowed) ∧
    (ent.abs_delta = ent.allowed → ent.within_delta = true) := by
  have hs := compare_entry_shape R G tols b jds hc jd hjd name ent hm
  have ha : ent.abs_delta = |ent.report - ent.golden| := by
    conv_lhs => rw [hs]
    exact compareMetric_abs_delta _ _ _
  have hal : ent.allowed =
      (resolveTol tols name).abs + (resolveTol tols name).rel * |ent.golden| := by
    conv_lhs => rw [hs]
    exact compareMetric_allowed _ _ _
  have hw : ent.within_delta =
      decide (|ent.report - ent.golden| ≤
        (resolveTol tols name).abs + (resolveTol tols name).rel * |ent.golden|) := by
    conv_lhs => rw [hs]
    exact compareMetric_within_delta _ _ _
  refine ⟨ha, hal, ?_, ?_⟩
  · rw [hw, ha, hal, decide_eq_true_eq]
  · intro he
    rw [hw, decide_eq_true_eq, ← ha, ← hal, he]

/-- C4 witness: a concrete one-job run under the default rule. -/
theorem claimC4_witness :
    (compareMetric (resolveTol [] "m") 5 5).abs_delta =
      |(compareMetric (resolveTol [] "m") 5 5).report -
        (compareMetric (resolveTol [] "m") 5 5).golden| ∧
    (compareMetric (resolveTol [] "m") 5 5).allowed =
      (resolveTol [] "m").abs +
        (resolveTol [] "m").rel * |(compareMetric (resolveTol [] "m") 5 5).golden| ∧
    ((compareMetric (resolveTol [] "m") 5 5).within_delta = true ↔
      (compareMetric (resolveTol [] "m") 5 5).abs_delta ≤
        (compareMetric (resolveTol [] "m") 5 5).allowed) ∧
    ((compareMetric (resolveTol [] "m") 5 5).abs_delta =
        (compareMetric (resolveTol [] "m") 5 5).allowed →
      (compareMetric (resolveTol [] "m") 5 5).within_delta = true) := by
  have hpass : (compareMetric (resolveTol [] "m") 5 5).pass = true := by
    simp only [compareMetric, resolveTol, lookupStr, Option.getD, Tolerance.default]
    norm_num [DEFAULT_ABS_TOL, DEFAULT_REL_TOL]
  have hc : Golden.compare ⟨[⟨[("m", ⟨some 5, Option.none⟩)]⟩]⟩
      ⟨[⟨[("m", ⟨some 5, Option.none⟩)]⟩]⟩ [] =
      .ok (true, .diffs [⟨0, [("m", compareMetric (resolveTol [] "m") 5 5)]⟩]) := by
    simp only [Golden.compare]
    rw [if_neg (by simp)]
    simp only [List.zip, List.zipWith, compareJobs, compareKpis, coerceValue, valueFor,
      lookupStr, dictInsert, beq_self_eq_true, if_pos]
    rw [hpass]
    rfl
  exact claimC4 ⟨[⟨[("m", ⟨some 5, Option.none⟩)]⟩]⟩
    ⟨[⟨[("m", ⟨some 5, Option.none⟩)]⟩]⟩ [] true
    [⟨0, [("m", compareMetric (resolveTol [] "m") 5 5)]⟩]
    ⟨0, [("m", compareMetric (resolveTol [] "m") 5 5)]⟩ "m"
    (compareMetric (resolveTol [] "m") 5 5) hc (by simp) (by simp)

/-- C3: a recorded diff entry has `within_bounds = false` exactly when the
resolved rule's `min` is set with `r + rule.absolute < min`, or its `max` is
set with `r - rule.absolute > max`; and with rule
`min = 0, max = 1, abs = 0.05` a candidate value of `-0.02` yields
`within_bounds = true`. -/
theorem claimC3 (R G : Report) (tols : List (String × Tolerance)) (b : Bool)
    (jds : List JobDiff) (jd : JobDiff) (name : String) (ent : DiffEntry)
    (hc : Golden.compare R G tols = .ok (b, .diffs jds))
    (hjd : jd ∈ jds) (hm : (name, ent) ∈ jd.metrics) :
    (ent.within_bounds = false ↔
      ((∃ m, (resolveTol tols name).min = some m ∧
          ent.report + (resolveTol tols name).abs < m) ∨
       (∃ m, (resolveTol tols name).max = some m ∧
          ent.report - (resolveTol tols name).abs > m))) ∧
    (compareMetric ⟨some 0, some 1, 1 / 20, DEFAULT_REL_TOL⟩ (1 / 2)
        (-(1 / 50))).within_bounds = true := by
  have hs := compare_entry_shape R G tols b jds hc jd hjd name ent hm
  constructor
  · conv_lhs => rw [hs]
    exact compareMetric_within_bounds_false_iff _ _ _
  · have h1 : ¬((-(1 / 50) : Rat) + 1 / 20 < 0) := by norm_num
    have h2 : ¬((-(1 / 50) : Rat) - 1 / 20 > 1) := by norm_num
    simp [compareMetric, h1, h2]
    norm_num

/-- C3 witness: the same concrete one-job run under the default rule. -/
theorem claimC3_witness :
    ((compareMetric (resolveTol [] "m") 5 5).within_bounds = false ↔
      ((∃ m, (resolveTol [] "m").min = some m ∧
          (compareMetric (resolveTol [] "m") 5 5).report + (resolveTol [] "m").abs < m) ∨
       (∃ m, (resolveTol [] "m").max = some m ∧
          (compareMetric (resolveTol [] "m") 5 5).report - (resolveTol [] "m").abs > m))) ∧
    (compareMetric ⟨some 0, some 1, 1 / 20, DEFAULT_REL_TOL⟩ (1 / 2)
        (-(1 / 50))).within_bounds = true := by
  have hpass : (compareMetric (resolveTol [] "m") 5 5).pass = true := by
    simp only [compareMetric, resolveTol, lookupStr, Option.getD, Tolerance.default]
    norm_num [DEFAULT_ABS_TOL, DEFAULT_REL_TOL]
  have hc : Golden.compare ⟨[⟨[("m", ⟨some 5, Option.none⟩)]⟩]⟩
      ⟨[⟨[("m", ⟨some 5, Option.none⟩)]⟩]⟩ [] =
      .ok (true, .diffs [⟨0, [("m", compareMetric (resolveTol [] "m") 5 5)]⟩]) := by
    simp only [Golden.compare]
    rw [if_neg (by simp)]
    simp only [List.zip, List.zipWith, compareJobs, compareKpis, coerceValue, valueFor,
      lookupStr, dictInsert, beq_self_eq_true, if_pos]
    rw [hpass]
    rfl
  exact claimC3 ⟨[⟨[("m", ⟨some 5, Option.none⟩)]⟩]⟩
    ⟨[⟨[("m", ⟨some 5, Option.none⟩)]⟩]⟩ [] true
    [⟨0, [("m", compareMetric (resolveTol [] "m") 5 5)]⟩]
    ⟨0, [("m", compareMetric (resolveTol [] "m") 5 5)]⟩ "m"
    (compareMetric (resolveTol [] "m") 5 5) hc (by simp) (by simp)

/-- C1 counterexample: candidate and golden agree exactly (`5` vs `5`), yet
under the rule `min = 10` (absolute/relative left at their defaults) the
recorded entry has `pass = false` — and the whole run fails — because the
bound check rejects the shared value.  This refutes the claim that equal
values pass regardless of the tolerance rule. -/
theorem claimC1_cex :
    Golden.compare ⟨[⟨[("m", ⟨some 5, Option.none⟩)]⟩]⟩
        ⟨[⟨[("m", ⟨some 5, Option.none⟩)]⟩]⟩
        [("m", ⟨some 10, Option.none, DEFAULT_ABS_TOL, DEFAULT_REL_TOL⟩)] =
      .ok (false, .diffs [⟨0, [("m",
        compareMetric ⟨some 10, Option.none, DEFAULT_ABS_TOL, DEFAULT_REL_TOL⟩ 5 5)]⟩]) ∧
    (compareMetric ⟨some 10, Option.none, DEFAULT_ABS_TOL, DEFAULT_REL_TOL⟩ 5 5).report =
      (compareMetric ⟨some 10, Option.none, DEFAULT_ABS_TOL, DEFAULT_REL_TOL⟩ 5 5).golden ∧
    (compareMetric ⟨some 10, Option.none, DEFAULT_ABS_TOL, DEFAULT_REL_TOL⟩ 5 5).pass =
      false := by
  have hb : (5 : Rat) + DEFAULT_ABS_TOL < 10 := by norm_num [DEFAULT_ABS_TOL]
  have hpass : (compareMetric ⟨some 10, Option.none, DEFAULT_ABS_TOL,
      DEFAULT_REL_TOL⟩ 5 5).pass = false := by
    simp only [compareMetric]
    rw [if_pos hb]
    simp
  refine ⟨?_, rfl, hpass⟩
  simp only [Golden.compare]
  rw [if_neg (by simp)]
  simp only [List.zip, List.zipWith, compareJobs, compareKpis, coerceValue, valueFor,
    lookupStr, resolveTol, dictInsert, beq_self_eq_true, if_pos, Option.getD]
  rw [hpass]
  rfl

/-- C1 (amended): when a recorded entry has `report = golden` exactly, its
`abs_delta` is `0` and — provided the resolved absolute and relative
tolerances are nonnegative — `within_delta` is `true`; `pass` then reduces to
the outcome of the bound checks, so it is `true` whenever no `min`/`max`
bound excludes the shared value, but not unconditionally. -/
theorem claimC1 (R G : Report) (tols : List (String × Tolerance)) (b : Bool)
    (jds : List JobDiff) (jd : JobDiff) (name : String) (ent : DiffEntry)
    (hc : Golden.compare R G tols = .ok (b, .diffs jds))
    (hjd : jd ∈ jds) (hm : (name, ent) ∈ jd.metrics)
    (heq : ent.report = ent.golden)
    (habs : 0 ≤ (resolveTol tols name).abs)
    (hrel : 0 ≤ (resolveTol tols name).rel) :
    ent.abs_delta = 0 ∧ ent.within_delta = true ∧
    ent.pass = ent.within_bounds := by
  have hs := compare_entry_shape R G tols b jds hc jd hjd name ent hm
  have ha : ent.abs_delta = |ent.report - ent.golden| := by
    conv_lhs => rw [hs]
    exact compareMetric_abs_delta _ _ _
  have ha0 : ent.abs_delta = 0 := by
    rw [ha, heq, sub_self, abs_zero]
  have hw : ent.within_delta =
      decide (|ent.report - ent.golden| ≤
        (resolveTol tols name).abs + (resolveTol tols name).rel * |ent.golden|) := by
    conv_lhs => rw [hs]
    exact compareMetric_within_delta _ _ _
  have hw1 : ent.within_delta = true := by
    rw [hw, decide_eq_true_eq, heq, sub_self, abs_zero]
    exact add_nonneg habs (mul_nonneg hrel (abs_nonneg _))
  have hp : ent.pass = (ent.within_delta && ent.within_bounds) := by
    rw [hs]
    exact compareMetric_pass _ _ _
  refine ⟨ha0, hw1, ?_⟩
  rw [hp, hw1, Bool.true_and]

/-- C1 witness: the defaults are nonnegative and a concrete equal-values run
instantiates the amended claim. -/
theorem claimC1_witness :
    (compareMetric (resolveTol [] "m") 5 5).abs_delta = 0 ∧
    (compareMetric (resolveTol [] "m") 5 5).within_delta = true ∧
    (compareMetric (resolveTol [] "m") 5 5).pass =
      (compareMetric (resolveTol [] "m") 5 5).within_bounds := by
  have hpass : (compareMetric (resolveTol [] "m") 5 5).pass = true := by
    simp only [compareMetric, resolveTol, lookupStr, Option.getD, Tolerance.default]
    norm_num [DEFAULT_ABS_TOL, DEFAULT_REL_TOL]
  have hc : Golden.compare ⟨[⟨[("m", ⟨some 5, Option.none⟩)]⟩]⟩
      ⟨[⟨[("m", ⟨some 5, Option.none⟩)]⟩]⟩ [] =
      .ok (true, .diffs [⟨0, [("m", compareMetric (resolveTol [] "m") 5 5)]⟩]) := by
    simp only [Golden.compare]
    rw [if_neg (by simp)]
    simp only [List.zip, List.zipWith, compareJobs, compareKpis, coerceValue, valueFor,
      lookupStr, dictInsert, beq_self_eq_true, if_pos]
    rw [hpass]
    rfl
  exact claimC1 ⟨[⟨[("m", ⟨some 5, Option.none⟩)]⟩]⟩
    ⟨[⟨[("m", ⟨some 5, Option.none⟩)]⟩]⟩ [] true
    [⟨0, [("m", compareMetric (resolveTol [] "m") 5 5)]⟩]
    ⟨0, [("m", compareMetric (resolveTol [] "m") 5 5)]⟩ "m"
    (compareMetric (resolveTol [] "m") 5 5) hc (by simp) (by simp)
    (compareMetric_report _ _ _ ▸ compareMetric_golden _ _ _ ▸ rfl)
    (by simp only [resolveTol, lookupStr, Option.getD, Tolerance.default]
        norm_num [DEFAULT_ABS_TOL])
    (by simp only [resolveTol, lookupStr, Option.getD, Tolerance.default]
        norm_num [DEFAULT_REL_TOL])

/-- C6: (i) for index-aligned job pairs, a golden metric whose value cannot be
read from the candidate (missing entry, or a value the float coercion
rejects) makes the whole comparison fail with a fatal error; (ii) on success,
every diff entry of the job at position `k` is named by a metric of the
corresponding golden job — candidate-only metrics produce no entry. -/
theorem claimC6 :
    (∀ (R G : Report) (tols : List (String × Tolerance)) (jr jg : Job)
      (name : String) (gp : Payload),
      R.jobs.length = G.jobs.length →
      (jr, jg) ∈ R.jobs.zip G.jobs →
      (name, gp) ∈ jg.kpis →
      valueFor jr.kpis name = Option.none →
      ∃ msg, Golden.compare R G tols = .error msg) ∧
    (∀ (R G : Report) (tols : List (String × Tolerance)) (b : Bool)
      (jds : List JobDiff),
      Golden.compare R G tols = .ok (b, .diffs jds) →
      jds.length = (R.jobs.zip G.jobs).length ∧
      ∀ (k : Nat) (hk : k < jds.length) (hk2 : k < (R.jobs.zip G.jobs).length)
        (name : String) (ent : DiffEntry),
        (name, ent) ∈ (jds.get ⟨k, hk⟩).metrics →
        name ∈ (((R.jobs.zip G.jobs).get ⟨k, hk2⟩).2.kpis.map Prod.fst)) :=
  ⟨fun R G tols jr jg name gp hlen hpair hg hv =>
    compare_err R G tols jr jg name gp hlen hpair hg hv,
   fun R G tols b jds h => compare_names R G tols b jds h⟩

/-- C6 witness: a golden job requiring metric `m` against a candidate job
without it. -/
theorem claimC6_witness :
    ∃ msg, Golden.compare ⟨[⟨[]⟩]⟩ ⟨[⟨[("m", ⟨some 1, Option.none⟩)]⟩]⟩ [] =
      .error msg :=
  claimC6.1 ⟨[⟨[]⟩]⟩ ⟨[⟨[("m", ⟨some 1, Option.none⟩)]⟩]⟩ [] ⟨[]⟩
    ⟨[("m", ⟨some 1, Option.none⟩)]⟩ "m" ⟨some 1, Option.none⟩ rfl
    (by simp [List.zip]) (by simp) rfl

/-- C9: the stored `pass` flags inside candidate and golden payloads never
influence the comparison — two runs whose inputs agree after erasing those
flags produce identical verdicts and identical diff structures. -/
theorem claimC9 (r1 g1 r2 g2 : Report) (tols : List (String × Tolerance))
    (hr : stripReport r1 = stripReport r2) (hg : stripReport g1 = stripReport g2) :
    Golden.compare r1 g1 tols = Golden.compare r2 g2 tols := by
  calc Golden.compare r1 g1 tols
      = Golden.compare (stripReport r1) (stripReport g1) tols :=
        (compare_strip r1 g1 tols).symm
    _ = Golden.compare (stripReport r2) (stripReport g2) tols := by rw [hr, hg]
    _ = Golden.compare r2 g2 tols := compare_strip r2 g2 tols

/-- C9 witness: flipping the stored `pass` flags leaves the result unchanged. -/
theorem claimC9_witness :
    Golden.compare ⟨[⟨[("m", ⟨some 1, some true⟩)]⟩]⟩
        ⟨[⟨[("m", ⟨some 1, some true⟩)]⟩]⟩ [] =
      Golden.compare ⟨[⟨[("m", ⟨some 1, some false⟩)]⟩]⟩
        ⟨[⟨[("m", ⟨some 1, Option.none⟩)]⟩]⟩ [] :=
  claimC9 ⟨[⟨[("m", ⟨some 1, some true⟩)]⟩]⟩ ⟨[⟨[("m", ⟨some 1, some true⟩)]⟩]⟩
    ⟨[⟨[("m", ⟨some 1, some false⟩)]⟩]⟩ ⟨[⟨[("m", ⟨some 1, Option.none⟩)]⟩]⟩
    [] rfl rfl

/-- C8: a line whose leading whitespace exceeds the expected indentation of
the block being parsed aborts the parse with the fatal indentation error (no
partial tree is returned); in particular a line indented 4 spaces directly
under a 0-indent key kills the whole `simple_yaml` parse. -/
theorem claimC8 :
    (∀ (lines : List String) (fuel i indent : Nat)
      (acc : List (String × PyVal)) (h : i < lines.length),
      indent < leadingWS (lines.get ⟨i, h⟩) →
      parseBlock lines (fuel + 1) i indent acc =
        .error ("invalid indentation on line: " ++ lines.get ⟨i, h⟩)) ∧
    simple_yaml "a:\n    b: 1" =
      .error ("invalid indentation on line: " ++ "    b: 1") := by
  constructor
  · intro lines fuel i indent acc h hlt
    simp only [parseBlock]
    rw [dif_pos h, if_neg (by omega), if_pos hlt]
  · rfl

/-- C8 witness: the general statement applied to a single over-indented
line. -/
theorem claimC8_witness :
    parseBlock ["    b: 1"] 1 0 0 [] =
      .error ("invalid indentation on line: " ++ "    b: 1") :=
  claimC8.1 ["    b: 1"] 0 0 0 [] (by decide) (by decide)

/-- C7 counterexample: the text `""a""` (two layers of double quotes) is not
a bracketed list, not a boolean, and not numeric; the code returns `a` — all
leading and trailing quotes removed — whereas stripping exactly one
surrounding layer would give `"a"`.  The two results differ, refuting the
one-layer reading. -/
theorem claimC7_cex :
    parse_scalar "\"\"a\"\"" = .ok (PyVal.str "a") ∧
    stripOneLayer "\"\"a\"\"" = "\"a\"" ∧
    ("a" : String) ≠ "\"a\"" :=
  ⟨rfl, rfl, by decide⟩

/-- C7 (amended): a scalar text that is not a bracketed list, not a boolean
literal and not parseable as a number is returned as a string with all
leading and trailing double-quote characters removed (Python
`str.strip` semantics, not a single surrounding layer); text without leading
or trailing double quotes — unquoted or single-quoted — is returned
verbatim. -/
theorem claimC7 (s : String)
    (hbr : (strStartsWith s '[' && strEndsWith s ']') = false)
    (hbool : (strToLower s == "true" || strToLower s == "false") = false)
    (hf : pyFloat? s = Option.none)
    (hi : pyInt? s = Option.none) :
    parse_scalar s = .ok (PyVal.str (stripQuote s)) := by
  simp only [parse_scalar, hbr, hbool, Bool.false_eq_true, if_false]
  cases hd : containsDotE s with
  | true =>
    rw [if_pos rfl]
    rw [hf]
  | false =>
    rw [if_neg (by simp), hi]

/-- C7 witness: a single-quoted word (which contains no leading or trailing
double quote) comes back verbatim. -/
theorem claimC7_witness :
    parse_scalar "'abc'" = .ok (PyVal.str "'abc'") :=
  claimC7 "'abc'" rfl rfl rfl rfl

/-- C10: building the tolerance table never fails on a non-mapping rule
value — a metric bound to a scalar or list silently receives the default
rule; and an absent or null `tolerances` key yields the empty table. -/
theorem claimC10 :
    (∀ (plan : List (String × PyVal)) (entries : List (String × PyVal))
      (name : String) (s : PyVal),
      lookupStr plan "tolerances" = some (PyVal.dict entries) →
      entries.filter (fun e => e.1 == name) = [(name, s)] →
      (∀ m, s ≠ PyVal.dict m) →
      ∃ tbl, collect_tolerances plan = .ok tbl ∧
        lookupStr tbl name = some Tolerance.default) ∧
    (∀ plan : List (String × PyVal),
      lookupStr plan "tolerances" = Option.none →
      collect_tolerances plan = .ok []) ∧
    (∀ plan : List (String × PyVal),
      lookupStr plan "tolerances" = some PyVal.none →
      collect_tolerances plan = .ok []) := by
  refine ⟨?_, ?_, ?_⟩
  · intro plan entries name s hlook hfilter hnd
    have hne : entries ≠ [] := by
      intro h0
      rw [h0] at hfilter
      simp at hfilter
    have hfal : isFalsy (PyVal.dict entries) = false := by
      simp [isFalsy, hne]
    refine ⟨entries.foldl (fun acc e => dictInsert acc e.1 (ruleOf e.2)) [], ?_, ?_⟩
    · simp only [collect_tolerances, hlook, Option.getD_some, hfal,
        Bool.false_eq_true, if_false]
    · have hfold := lookupStr_fold_dictInsert (fun e => ruleOf e.2) name s
        entries [] hfilter
      rw [hfold]
      show some (ruleOf s) = some Tolerance.default
      have hrule : ruleOf s = Tolerance.default := by
        cases s with
        | dict m => exact absurd rfl (hnd m)
        | none => rfl
        | bool b => rfl
        | int n => rfl
        | float q => rfl
        | str t => rfl
        | list xs => rfl
      rw [hrule]
  · intro plan h
    simp [collect_tolerances, h, isFalsy]
  · intro plan h
    simp [collect_tolerances, h, isFalsy]

/-- C10 witness: a metric bound to the scalar `5`, an empty plan, and a null
`tolerances` key. -/
theorem claimC10_witness :
    (∃ tbl, collect_tolerances [("tolerances", PyVal.dict [("m", PyVal.int 5)])] =
        .ok tbl ∧ lookupStr tbl "m" = some Tolerance.default) ∧
    collect_tolerances [] = .ok [] ∧
    collect_tolerances [("tolerances", PyVal.none)] = .ok [] :=
  ⟨claimC10.1 [("tolerances", PyVal.dict [("m", PyVal.int 5)])]
      [("m", PyVal.int 5)] "m" (PyVal.int 5) rfl rfl
      (fun _ h => PyVal.noConfusion h),
   claimC10.2.1 [] rfl,
   claimC10.2.2 [("tolerances", PyVal.none)] rfl⟩
